import Mathlib

/-!
Verification of the `testdiff` impact-analysis core.

This file is a shallow embedding of the Rust sources:
  - `src/project/resolve.rs`  (import specs, `module_name`, `resolve_import`)
  - `src/priority.rs`         (`Priority`, `priority`)
  - `src/project/utils.rs`    (`is_test_file`)
  - `src/project/index.rs`    (`ModuleInfo`, `ProjectIndex`, `parse_file`)
  - `src/project/graph.rs`    (`impacted_tests` and its helpers)
  - `src/main.rs`             (`normalize_changed`)

Modelling conventions:
  - Filesystem paths are lists of path components (`List String`); the ambient
    filesystem queried by `exists()` calls is passed explicitly as the set
    (list) of existing files.
  - Rust `HashMap`/`HashSet` values are modelled as association lists / lists
    with insert-if-absent semantics; iteration order is the list order
    (the Rust iteration order is arbitrary).
  - Machine integers (`usize`, `u32`, `u8`) are modelled as `Nat`; the only
    place overflow could matter is the `usize::MAX` sentinel, modelled as
    `2 ^ 64 - 1`.
  - String operations are implemented structurally on `String.data` so that
    the kernel can evaluate them; they implement the corresponding Rust
    `str`/`Path` operations (split, join, prefix/suffix/substring tests,
    byte-lexicographic comparison, which on UTF-8 agrees with code-point
    order).
  - `Vec::sort_by` is a stable sort; it is modelled by `List.insertionSort`,
    which is also stable, with the same comparator (the output of a stable
    sort is determined by the comparator and the input order).
-/

/-! ## String primitives (structural, kernel-evaluable) -/

/-- Split a character list at every occurrence of `c` (Rust `str::split`):
splitting the empty string yields one empty piece. -/
def splitOnChar (c : Char) : List Char → List (List Char)
  | [] => [[]]
  | x :: xs =>
    let rest := splitOnChar c xs
    if x = c then [] :: rest
    else
      match rest with
      | [] => [[x]]
      | r :: rs => (x :: r) :: rs

/-- Rust `s.split('.')` collected to a list of `String`s. -/
def splitDots (s : String) : List String :=
  (splitOnChar '.' s.data).map String.mk

/-- Rust `parts.join(".")`. -/
def joinDots (l : List String) : String :=
  String.intercalate "." l

/-- Components of a path string split at `/` (Rust `Path` components for the
paths this program manipulates). -/
def splitSlash (s : String) : List String :=
  (splitOnChar '/' s.data).map String.mk

/-- Path components joined with `/`, as `Utf8Path` renders them. -/
def joinSlash (l : List String) : String :=
  String.intercalate "/" l

/-- Rust `str::starts_with` on strings. -/
def strStartsWith (s p : String) : Bool :=
  p.data.isPrefixOf s.data

/-- Rust `str::ends_with` on strings. -/
def strEndsWith (s p : String) : Bool :=
  p.data.isSuffixOf s.data

/-- Substring test on character lists (Rust `str::contains` with a string
pattern). The empty pattern is contained in every string. -/
def isInfixChars (p : List Char) : List Char → Bool
  | [] => p.isPrefixOf []
  | x :: rest => p.isPrefixOf (x :: rest) || isInfixChars p rest

/-- Rust `str::contains` for a string pattern. -/
def strContains (s p : String) : Bool :=
  isInfixChars p.data s.data

/-- Strict byte-lexicographic comparison of character lists, as `Ordering`
(Rust `Ord for str`; on UTF-8 data byte order equals code-point order). -/
def cmpChars : List Char → List Char → Ordering
  | [], [] => .eq
  | [], _ :: _ => .lt
  | _ :: _, [] => .gt
  | a :: as, b :: bs =>
    if a.toNat < b.toNat then .lt
    else if a.toNat = b.toNat then cmpChars as bs
    else .gt

/-- Rust `String::cmp`. -/
def cmpStr (a b : String) : Ordering :=
  cmpChars a.data b.data

/-- Rust `usize::cmp` / `u8::cmp` on the `Nat` model. -/
def cmpNat (a b : Nat) : Ordering :=
  if a < b then .lt else if a = b then .eq else .gt

/-- Rust `str::strip_suffix(".py")` applied to a component, keeping the
component unchanged when the suffix is absent. -/
def stripPySuffix (s : String) : String :=
  if strEndsWith s ".py" then String.mk (s.data.take (s.data.length - 3)) else s

/-- Rust `Path::extension` of a file name: the part after the last `.`,
none when there is no `.` or only a leading one. -/
def extOfName (name : String) : Option String :=
  match (splitOnChar '.' name.data).map String.mk with
  | [] => none
  | [_] => none
  | ["", _] => none
  | parts => parts.getLast?

/-- Rust `Path::file_stem` of a file name: everything before the last `.`,
the whole name when there is no `.` or only a leading one. -/
def stemOfName (name : String) : String :=
  match (splitOnChar '.' name.data).map String.mk with
  | [] => ""
  | [s] => s
  | ["", _] => name
  | parts => joinDots parts.dropLast

/-! ## Filesystem paths -/

/-- A filesystem path as its list of components; the project root is also a
component list and `root.join(sub)` is list append. -/
abbrev FsPath := List String

/-- Rust `Path::file_name` (with the `unwrap_or("")` used at every call
site in the sources). -/
def fileNameOfPath (p : FsPath) : String :=
  p.getLast?.getD ""

/-- Rust `Path::extension` on a full path. -/
def pathExtension (p : FsPath) : Option String :=
  match p.getLast? with
  | none => none
  | some name => extOfName name

/-- The ambient filesystem, modelled as the list of files that exist. -/
abbrev Fs := List FsPath

/-- Rust `path.exists()` against the modelled filesystem. -/
def fsExists (fs : Fs) (p : FsPath) : Bool :=
  fs.contains p

/-! ## `src/project/resolve.rs` -/

/-- `ImportKind` from `resolve.rs`. -/
inductive ImportKind where
  | Import
  | ImportFrom
deriving DecidableEq

/-- `ImportSpec` from `resolve.rs`; `level : u32` is modelled as `Nat`. -/
structure ImportSpec where
  level : Nat
  module : Option String
  name : Option String
  kind : ImportKind
deriving DecidableEq

/-- The package-ancestry walk of `module_name`: collect enclosing directory
names (outermost first) while each ancestor directory contains an
`__init__.py` marker. The fuel argument bounds the walk; it is called with
the directory depth, which the parent chain cannot exceed, so the fuel
never runs out. -/
def packageParts (fs : Fs) : Nat → FsPath → List String
  | 0, _ => []
  | _ + 1, [] => []
  | fuel + 1, d :: ds =>
    let dir := d :: ds
    if fsExists fs (dir ++ ["__init__.py"]) then
      packageParts fs fuel dir.dropLast ++ [dir.getLast?.getD ""]
    else []

/-- `module_name` from `resolve.rs`: the dotted module identity computed
from a file's path, package ancestry and stem. -/
def module_name (fs : Fs) (root : FsPath) (path : FsPath) : String :=
  let parent := path.dropLast
  let package_parts := packageParts fs parent.length parent
  let stem := stemOfName (fileNameOfPath path)
  if stem = "__init__" then joinDots package_parts
  else if package_parts ≠ [] then joinDots (package_parts ++ [stem])
  else
    let rel := if root.isPrefixOf path then path.drop root.length else path
    let comps :=
      match rel.getLast? with
      | none => rel
      | some last => rel.dropLast ++ [stripPySuffix last]
    joinDots comps

/-- The `for _ in 0..pops { parts.pop() }` loop of `resolve_import`. -/
def popLastN : Nat → List String → List String
  | 0, l => l
  | n + 1, l => popLastN n l.dropLast

/-- `resolve_import` from `resolve.rs`. -/
def resolve_import (current_module : String) (is_package : Bool)
    (spec : ImportSpec) : Option String :=
  let base :=
    if spec.level > 0 then
      let parts := splitDots current_module
      if ¬(is_package = true ∧ spec.level = 1) then
        popLastN (min spec.level parts.length) parts
      else parts
    else []
  let target_parts :=
    base ++
      (match spec.module with
        | some m => if m ≠ "" then splitDots m else []
        | none => [])
  let target_parts :=
    match spec.kind, spec.name with
    | ImportKind.ImportFrom, some n =>
      if n ≠ "*" then target_parts ++ [n] else target_parts
    | _, _ => target_parts
  if target_parts = [] then none else some (joinDots target_parts)

/-! ## `src/priority.rs` -/

/-- `Priority` from `priority.rs`; `filename_match : u8` (only 0..2 occur)
and `distance : usize` are modelled as `Nat`. The derived Rust `Ord` is
lexicographic by field order. -/
structure Priority where
  filename_match : Nat
  distance : Nat
deriving DecidableEq

/-- The strong filename condition of `priority`: the filename begins with
`test_<leaf>` or contains `_<leaf>`. -/
def strongMatch (filename leaf : String) : Bool :=
  strStartsWith filename ("test_" ++ leaf) || strContains filename ("_" ++ leaf)

/-- The weak filename condition of `priority`: the filename contains the
leaf as a substring. -/
def weakMatch (filename leaf : String) : Bool :=
  strContains filename leaf

/-- The leaf loop of `priority`: running value starts at 2, a strong match
returns 0 immediately, a weak match lowers the running value to at most 1. -/
def priorityLoop (filename : String) : List String → Nat → Nat
  | [], acc => acc
  | leaf :: rest, acc =>
    if strongMatch filename leaf then 0
    else if weakMatch filename leaf then priorityLoop filename rest (min acc 1)
    else priorityLoop filename rest acc

/-- `priority` from `priority.rs`. The `changed_leaves` set is passed in its
(arbitrary) iteration order. -/
def priority (path : String) (distance : Nat)
    (changed_leaves : List String) : Priority :=
  let filename := (splitSlash path).getLast?.getD ""
  { filename_match := priorityLoop filename changed_leaves 2
    distance := distance }

/-! ## `src/project/utils.rs` -/

/-- `is_test_file` from `utils.rs`. -/
def is_test_file (path : FsPath) : Bool :=
  let filename := fileNameOfPath path
  strStartsWith filename "test_" || strEndsWith filename "_test.py"

/-! ## `src/project/index.rs` data model -/

/-- `ModuleInfo` from `index.rs`: the `imports` are the already
syntactically-resolved dotted target strings produced by `resolve_import`
at indexing time. -/
structure ModuleInfo where
  module : String
  path : FsPath
  imports : List String
deriving DecidableEq

/-- `ProjectIndex` from `index.rs`. The two `HashMap`s are association
lists; `lookupModule`/`lookupPath` give the map semantics. -/
structure ProjectIndex where
  root : FsPath
  modules : List (String × ModuleInfo)
  path_to_module : List (FsPath × String)
  warnings : List String

/-- `self.modules.get(name)`. -/
def lookupModule (idx : ProjectIndex) (name : String) : Option ModuleInfo :=
  (idx.modules.find? (fun p => p.1 == name)).map (·.2)

/-- `self.path_to_module.get(path)`. -/
def lookupPath (idx : ProjectIndex) (p : FsPath) : Option String :=
  (idx.path_to_module.find? (fun q => q.1 == p)).map (·.2)

/-! ## `src/project/index.rs`: `parse_file`, and `normalize_changed` from
`src/main.rs` (the path-encoding boundary) -/

/-- A raw OS path as received from the walker or the caller: either
representable in the core's UTF-8 path encoding or not. -/
inductive RawPath where
  | utf8 (p : FsPath)
  | nonUtf8 (tag : Nat)
deriving DecidableEq

/-- Outcome of reading and parsing one candidate file, abstracting
`fs::read_to_string` + `parse_module` (external collaborators). -/
inductive ReadResult where
  | unreadable
  | unparsable
  | parsed (specs : List ImportSpec)

/-- `parse_file` from `index.rs`: a non-UTF-8 path is silently skipped
(`Ok(None)`, no warning); an unreadable file is a propagated error (turned
into a warning by the caller `build`); an unparsable file records a warning
and is skipped; otherwise the module record is produced, with imports
resolved through `resolve_import`. -/
def parse_file (fs : Fs) (read : FsPath → ReadResult) (root : FsPath)
    (path : RawPath) (warnings : List String) :
    Except String (Option ModuleInfo × List String) :=
  match path with
  | .nonUtf8 _ => .ok (none, warnings)
  | .utf8 p =>
    match read p with
    | .unreadable => .error ("Failed to read " ++ joinSlash p)
    | .unparsable => .ok (none, warnings ++ ["Failed to parse " ++ joinSlash p])
    | .parsed specs =>
      let module := module_name fs root p
      let is_package := stemOfName (fileNameOfPath p) == "__init__"
      let imports := specs.filterMap (resolve_import module is_package)
      .ok (some { module := module, path := p, imports := imports }, warnings)

/-- `normalize_changed` from `main.rs`: converts the changed paths to the
core's path encoding, failing on the first non-representable one. -/
def normalize_changed : List RawPath → Except String (List FsPath)
  | [] => .ok []
  | .nonUtf8 _ :: _ => .error "Changed path must be valid UTF-8"
  | .utf8 p :: rest =>
    match normalize_changed rest with
    | .ok l => .ok (p :: l)
    | .error e => .error e

/-! ## `src/project/graph.rs` -/

/-- `TestResult` from `graph.rs`. -/
structure TestResult where
  path : String
  priority : Priority
  distance : Nat
deriving DecidableEq

/-- `usize::MAX`, the fallback distance in `impacted_tests`. -/
def usizeMax : Nat := 2 ^ 64 - 1

/-- `resolve_known_module` from `graph.rs`. -/
def resolve_known_module (idx : ProjectIndex) (imp : String) : Option String :=
  if (lookupModule idx imp).isSome then some imp else none

/-- The dotted-candidate-to-file conversion in `heuristic_map`:
`a.b.c` becomes `a/b/c.py` (as components under the root). -/
def dottedToPyFile (imp : String) : FsPath :=
  let comps := splitDots imp
  comps.dropLast ++ [(comps.getLast?.getD "") ++ ".py"]

/-- `heuristic_map` from `graph.rs`. -/
def heuristic_map (fs : Fs) (idx : ProjectIndex) (imp : String) : Option String :=
  let file := idx.root ++ dottedToPyFile imp
  match (if fsExists fs file then lookupPath idx file else none) with
  | some m => some m
  | none =>
    let init := idx.root ++ splitDots imp ++ ["__init__.py"]
    if fsExists fs init then lookupPath idx init else none

/-- The `while parts.len() > 1` loop of `trim_to_known_module`; the fuel is
the initial component count, which bounds the number of pops. -/
def trimLoop (idx : ProjectIndex) : Nat → List String → Option String
  | 0, _ => none
  | fuel + 1, parts =>
    if parts.length > 1 then
      let c := parts.dropLast
      let candidate := joinDots c
      if (lookupModule idx candidate).isSome then some candidate
      else trimLoop idx fuel c
    else none

/-- `trim_to_known_module` from `graph.rs`. -/
def trim_to_known_module (idx : ProjectIndex) (imp : String) : Option String :=
  let parts := splitDots imp
  trimLoop idx parts.length parts

/-- The three-step resolution chain
`resolve_known_module . or heuristic_map . or trim_to_known_module`
used both for imports and for guessed changed modules. -/
def resolveChain (fs : Fs) (idx : ProjectIndex) (imp : String) : Option String :=
  match resolve_known_module idx imp with
  | some t => some t
  | none =>
    match heuristic_map fs idx imp with
    | some t => some t
    | none => trim_to_known_module idx imp

/-- The set of leading components of known module identities
(`top_levels` in `impacted_tests`). -/
def topLevels (idx : ProjectIndex) : List String :=
  idx.modules.map (fun p => (splitDots p.1).headD "")

/-- The unresolved-import warning text. -/
def unresolvedMsg (imp modName : String) : String :=
  "Unresolved import `" ++ imp ++ "` in module `" ++ modName ++ "`"

/-- Insert an edge `target → importer` into the reverse adjacency map
(`reverse.entry(target).or_default().insert(importer)`). -/
def revInsert (reverse : List (String × List String)) (target importer : String) :
    List (String × List String) :=
  match reverse with
  | [] => [(target, [importer])]
  | (t, s) :: rest =>
    if t == target then
      (t, if s.contains importer then s else s ++ [importer]) :: rest
    else (t, s) :: revInsert rest target importer

/-- Processing of one recorded import in the reverse-graph pass of
`impacted_tests`: resolve it through the chain; on failure warn only when
its top-level component is a known top-level package; skip empty targets. -/
def processImport (fs : Fs) (idx : ProjectIndex) (modName : String)
    (acc : List (String × List String) × List String) (imp : String) :
    List (String × List String) × List String :=
  match resolveChain fs idx imp with
  | some target =>
    if target = "" then acc
    else (revInsert acc.1 target modName, acc.2)
  | none =>
    if (topLevels idx).contains ((splitDots imp).headD "") then
      (acc.1, acc.2 ++ [unresolvedMsg imp modName])
    else acc

/-- Step 1 of `impacted_tests`: the reverse dependency map together with the
accumulated warnings (the cloned index warnings plus resolution warnings). -/
def buildReverse (fs : Fs) (idx : ProjectIndex) :
    List (String × List String) × List String :=
  idx.modules.foldl
    (fun acc kv => kv.2.imports.foldl (processImport fs idx kv.2.module) acc)
    ([], idx.warnings)

/-- `reverse.get(&module)` with a default empty set, as used by the BFS. -/
def revChildren (reverse : List (String × List String)) (m : String) :
    List String :=
  ((reverse.find? (fun p => p.1 == m)).map (·.2)).getD []

/-- The BFS bookkeeping: the visited set `impacted_modules`, the
first-assigned `distances` map and the FIFO `queue`. -/
structure BfsState where
  impacted : List String
  distances : List (String × Nat)
  queue : List String
deriving DecidableEq

/-- `distances.get(&m)`. -/
def lookupDist (distances : List (String × Nat)) (m : String) : Option Nat :=
  (distances.find? (fun p => p.1 == m)).map (·.2)

/-- The shared insertion pattern of `impacted_tests`: if the module is new
to `impacted_modules`, record its distance and enqueue it; otherwise leave
the state unchanged (a first-assigned distance is never overwritten). -/
def stateInsert (st : BfsState) (m : String) (d : Nat) : BfsState :=
  if st.impacted.contains m then st
  else
    { impacted := st.impacted ++ [m]
      distances := st.distances ++ [(m, d)]
      queue := st.queue ++ [m] }

/-- Step 2 of `impacted_tests` for a single changed path: a known path
seeds its module at distance 0; otherwise a changed `.py` file seeds the
best-guess module (resolved through the chain when possible, verbatim
otherwise) at distance 0. -/
def seedOne (fs : Fs) (idx : ProjectIndex) (st : BfsState) (path : FsPath) :
    BfsState :=
  match lookupPath idx path with
  | some module => stateInsert st module 0
  | none =>
    if (pathExtension path).map (fun ext => ext == "py") |>.getD false then
      let guessed := module_name fs idx.root path
      let target := (resolveChain fs idx guessed).getD guessed
      stateInsert st target 0
    else st

/-- Step 2 of `impacted_tests` over the whole changed set. -/
def seedChanged (fs : Fs) (idx : ProjectIndex) (changed : List FsPath) :
    BfsState :=
  changed.foldl (seedOne fs idx) { impacted := [], distances := [], queue := [] }

/-- The diagnostic emitted (to stderr only) when a changed file is handled
via the guess path; it is never added to the accumulated warning list. -/
def guessWarning (fs : Fs) (idx : ProjectIndex) (path : FsPath) : List String :=
  match lookupPath idx path with
  | some _ => []
  | none =>
    if (pathExtension path).map (fun ext => ext == "py") |>.getD false then
      ["Warning: changed file not indexed (using module `" ++
        module_name fs idx.root path ++ "`): " ++ joinSlash path]
    else []

/-- All guess-path diagnostics for a changed set, in order. -/
def guessWarnings (fs : Fs) (idx : ProjectIndex) (changed : List FsPath) :
    List String :=
  changed.foldl (fun acc p => acc ++ guessWarning fs idx p) []

/-- Step 3 of `impacted_tests`: the bounded BFS loop. One fuel unit is
spent per dequeued module; with the limit set, a module whose recorded
distance has reached the limit is not expanded (it stays impacted but
contributes no further reach). -/
def bfsLoop (reverse : List (String × List String))
    (distance_limit : Option Nat) : Nat → BfsState → BfsState
  | 0, st => st
  | fuel + 1, st =>
    match st.queue with
    | [] => st
    | module :: rest =>
      let st1 : BfsState :=
        { impacted := st.impacted, distances := st.distances, queue := rest }
      let current_dist := (lookupDist st1.distances module).getD 0
      if (match distance_limit with
          | some limit => decide (current_dist ≥ limit)
          | none => false) then
        bfsLoop reverse distance_limit fuel st1
      else
        let st2 := (revChildren reverse module).foldl
          (fun s dep => stateInsert s dep (current_dist + 1)) st1
        bfsLoop reverse distance_limit fuel st2

/-- Fuel sufficient to drain the queue: every enqueued module is distinct
(guarded by the visited set), so the number of dequeues is bounded by the
seeds plus the total size of the reverse adjacency sets. -/
def bfsFuel (reverse : List (String × List String)) (st : BfsState) : Nat :=
  st.queue.length + (reverse.map (fun p => p.2.length)).sum + 1

/-- The BFS of `impacted_tests`, run to queue exhaustion. -/
def runBfs (reverse : List (String × List String)) (distance_limit : Option Nat)
    (st : BfsState) : BfsState :=
  bfsLoop reverse distance_limit (bfsFuel reverse st) st

/-- The BFS state after seeding and traversal for a given input. -/
def finalState (fs : Fs) (idx : ProjectIndex) (changed : List FsPath)
    (distance_limit : Option Nat) : BfsState :=
  runBfs (buildReverse fs idx).1 distance_limit (seedChanged fs idx changed)

/-- Insert-if-absent used to model collecting into a `HashSet`. -/
def dedupInsert (acc : List String) (x : String) : List String :=
  if acc.contains x then acc else acc ++ [x]

/-- Step 5 of `impacted_tests`: the set of final dotted components of all
visited modules (`changed_leaves`), in first-encounter order. -/
def changedLeaves (st : BfsState) : List String :=
  ((st.distances.filter (fun p => st.impacted.contains p.1)).map
    (fun p => (splitDots p.1).getLast?.getD "")).foldl dedupInsert []

/-- Construction of one `TestResult` in step 4 of `impacted_tests`: the
output path is relative to the root when the strip succeeds, absolute
otherwise; the distance falls back to `usize::MAX` when the module has no
recorded distance. -/
def mkTestResult (idx : ProjectIndex) (distances : List (String × Nat))
    (leaves : List String) (module : String) (info : ModuleInfo) : TestResult :=
  let d := (lookupDist distances module).getD usizeMax
  if idx.root.isPrefixOf info.path then
    let rel := joinSlash (info.path.drop idx.root.length)
    { path := rel, priority := priority rel d leaves, distance := d }
  else
    let p := joinSlash info.path
    { path := p, priority := priority p d leaves, distance := d }

/-- Step 4 of `impacted_tests` for one visited module: keep it only when it
is indexed and its file name matches the test naming convention. -/
def collectOne (idx : ProjectIndex) (st : BfsState) (leaves : List String)
    (module : String) : List TestResult :=
  match lookupModule idx module with
  | some info =>
    if is_test_file info.path then [mkTestResult idx st.distances leaves module info]
    else []
  | none => []

/-- Step 4 of `impacted_tests` over the visited set. -/
def collectTests (idx : ProjectIndex) (st : BfsState) (leaves : List String) :
    List TestResult :=
  st.impacted.flatMap (collectOne idx st leaves)

/-- The sort comparator of `impacted_tests`:
`a.priority.cmp(&b.priority).then_with(|| a.path.cmp(&b.path))`, where the
derived `Ord` on `Priority` is lexicographic by field order. -/
def cmpPriority (a b : Priority) : Ordering :=
  (cmpNat a.filename_match b.filename_match).then (cmpNat a.distance b.distance)

/-- The full comparator on results. -/
def cmpTestResult (a b : TestResult) : Ordering :=
  (cmpPriority a.priority b.priority).then (cmpStr a.path b.path)

/-- The non-strict order induced by the comparator; a stable sort under the
comparator orders consecutive elements so that this holds. -/
def testLE (a b : TestResult) : Bool :=
  ¬(cmpTestResult a b = .gt)

/-- Step 5 of `impacted_tests`: the stable sort (`Vec::sort_by`), modelled
by the stable `List.insertionSort` with the same comparator. -/
def sortTests (l : List TestResult) : List TestResult :=
  List.insertionSort (fun a b => testLE a b = true) l

/-- Steps 1–5 of `impacted_tests`: the full sorted, truncated result list
(independent of the warning-escalation flag). -/
def computeTests (fs : Fs) (idx : ProjectIndex) (changed : List FsPath)
    (max distance_limit : Option Nat) : List TestResult :=
  let st := finalState fs idx changed distance_limit
  let tests := sortTests (collectTests idx st (changedLeaves st))
  match max with
  | some limit => tests.take limit
  | none => tests

/-- The accumulated warning list of a run: the cloned index warnings plus
the resolution-time warnings of the reverse-graph pass. -/
def allWarnings (fs : Fs) (idx : ProjectIndex) : List String :=
  (buildReverse fs idx).2

/-- The warnings-as-errors failure message of `impacted_tests`. -/
def errMsg (warnings : List String) : String :=
  "Warnings treated as errors (" ++ toString warnings.length ++
    " warnings). First: " ++ warnings.headD ""

/-- `impacted_tests` from `graph.rs` (the `quiet` flag only affects the
diagnostic stream, modelled separately by `emittedDiagnostics`). -/
def impacted_tests (fs : Fs) (idx : ProjectIndex) (changed : List FsPath)
    (max distance_limit : Option Nat) (warn_as_error : Bool) :
    Except String (List TestResult) :=
  let tests := computeTests fs idx changed max distance_limit
  let warnings := allWarnings fs idx
  if warn_as_error && ¬warnings.isEmpty then .error (errMsg warnings)
  else .ok tests

/-- The diagnostic stream of a run: with `quiet` unset, every accumulated
warning prefixed with `Warning: `, then the guess-path diagnostics emitted
during seeding; with `quiet` set, nothing. -/
def emittedDiagnostics (fs : Fs) (idx : ProjectIndex) (changed : List FsPath)
    (quiet : Bool) : List String :=
  if quiet then []
  else (allWarnings fs idx).map (fun w => "Warning: " ++ w) ++
    guessWarnings fs idx changed

/-- A whole run as observed by the caller: the result, the accumulated
warning list, and the emitted diagnostic stream. -/
def impactedTestsRun (fs : Fs) (idx : ProjectIndex) (changed : List FsPath)
    (max distance_limit : Option Nat) (quiet warn_as_error : Bool) :
    Except String (List TestResult) × List String × List String :=
  (impacted_tests fs idx changed max distance_limit warn_as_error,
    allWarnings fs idx,
    emittedDiagnostics fs idx changed quiet)

/-- Whether an `Except` is the error case. -/
def exceptIsError {ε α : Type} : Except ε α → Bool
  | .error _ => true
  | .ok _ => false

/-- The payload of a successful run (empty on error); used to state
membership facts about concrete runs. -/
def okList {ε α : Type} : Except ε (List α) → List α
  | .error _ => []
  | .ok l => l

/-! ## Concrete scenarios -/

/-- Project root for the deleted-file scenario. -/
def rootDel : FsPath := ["proj"]

/-- Filesystem of the deleted-file scenario: `pkg/__init__.py` and
`tests/test_foo.py` remain after `pkg/foo.py` is deleted. -/
def fsDel : Fs := [["proj", "pkg", "__init__.py"], ["proj", "tests", "test_foo.py"]]

/-- The module record of `pkg/__init__.py` as `ProjectIndex::build`
produces it (empty file, no imports). -/
def pkgInitInfo : ModuleInfo :=
  { module := module_name fsDel rootDel ["proj", "pkg", "__init__.py"]
    path := ["proj", "pkg", "__init__.py"]
    imports := [] }

/-- The single import declaration of `tests/test_foo.py`:
`from pkg import foo`. -/
def fromPkgImportFoo : ImportSpec :=
  { level := 0, module := some "pkg", name := some "foo", kind := .ImportFrom }

/-- The module record of `tests/test_foo.py` as `ProjectIndex::build`
produces it. -/
def testFooInfo : ModuleInfo :=
  { module := module_name fsDel rootDel ["proj", "tests", "test_foo.py"]
    path := ["proj", "tests", "test_foo.py"]
    imports :=
      [fromPkgImportFoo].filterMap
        (resolve_import (module_name fsDel rootDel ["proj", "tests", "test_foo.py"]) false) }

/-- The project index built over the deleted-file scenario. -/
def idxDel : ProjectIndex :=
  { root := rootDel
    modules := [(pkgInitInfo.module, pkgInitInfo), (testFooInfo.module, testFooInfo)]
    path_to_module :=
      [(pkgInitInfo.path, pkgInitInfo.module), (testFooInfo.path, testFooInfo.module)]
    warnings := [] }

/-- The deleted path, passed as the sole changed file. -/
def changedDel : List FsPath := [["proj", "pkg", "foo.py"]]

/-! ## Helper lemmas: comparators -/

theorem then_eq_lt {o₁ o₂ : Ordering} :
    o₁.then o₂ = .lt ↔ o₁ = .lt ∨ (o₁ = .eq ∧ o₂ = .lt) := by
  cases o₁ <;> simp [Ordering.then]

theorem then_eq_gt {o₁ o₂ : Ordering} :
    o₁.then o₂ = .gt ↔ o₁ = .gt ∨ (o₁ = .eq ∧ o₂ = .gt) := by
  cases o₁ <;> simp [Ordering.then]

theorem then_eq_eq {o₁ o₂ : Ordering} :
    o₁.then o₂ = .eq ↔ o₁ = .eq ∧ o₂ = .eq := by
  cases o₁ <;> simp [Ordering.then]

theorem cmpNat_lt_iff {a b : Nat} : cmpNat a b = .lt ↔ a < b := by
  unfold cmpNat; split_ifs <;> simp_all

theorem cmpNat_eq_iff {a b : Nat} : cmpNat a b = .eq ↔ a = b := by
  unfold cmpNat; split_ifs <;> simp_all <;> omega

theorem cmpNat_gt_iff {a b : Nat} : cmpNat a b = .gt ↔ b < a := by
  unfold cmpNat; split_ifs <;> simp_all <;> omega

theorem cmpChars_eq_iff : ∀ as bs : List Char,
    cmpChars as bs = .eq ↔ as.map Char.toNat = bs.map Char.toNat := by
  intro as
  induction as with
  | nil => intro bs; cases bs <;> simp [cmpChars]
  | cons a as ih =>
    intro bs
    cases bs with
    | nil => simp [cmpChars]
    | cons b bs =>
      simp only [cmpChars, List.map_cons, List.cons.injEq]
      split_ifs with h1 h2
      · constructor
        · intro h; cases h
        · intro h; omega
      · rw [ih]; simp [h2]
      · constructor
        · intro h; cases h
        · intro h; omega

theorem cmpChars_gt_iff : ∀ as bs : List Char,
    cmpChars as bs = .gt ↔ cmpChars bs as = .lt := by
  intro as
  induction as with
  | nil => intro bs; cases bs <;> simp [cmpChars]
  | cons a as ih =>
    intro bs
    cases bs with
    | nil => simp [cmpChars]
    | cons b bs =>
      simp only [cmpChars]
      split_ifs with h1 h2 h3 h4 h3 h4 <;> try simp_all
      · omega
      · exact ih bs
      · omega

theorem cmpChars_lt_trans : ∀ as bs cs : List Char,
    cmpChars as bs = .lt → cmpChars bs cs = .lt → cmpChars as cs = .lt := by
  intro as
  induction as with
  | nil =>
    intro bs cs h1 h2
    cases bs with
    | nil => cases h1
    | cons b bs =>
      cases cs with
      | nil => cases h2
      | cons c cs => simp [cmpChars]
  | cons a as ih =>
    intro bs cs h1 h2
    cases bs with
    | nil => cases h1
    | cons b bs =>
      cases cs with
      | nil => cases h2
      | cons c cs =>
        simp only [cmpChars] at h1 h2 ⊢
        split_ifs at h1 with g1 g2 <;> split_ifs at h2 with g3 g4 <;>
          split_ifs with g5 g6 <;> try rfl
        all_goals try omega
        exact ih bs cs h1 h2

theorem cmpChars_congr_left : ∀ as bs cs : List Char,
    as.map Char.toNat = bs.map Char.toNat → cmpChars as cs = cmpChars bs cs := by
  intro as
  induction as with
  | nil =>
    intro bs cs h
    cases bs with
    | nil => rfl
    | cons b bs => cases h
  | cons a as ih =>
    intro bs cs h
    cases bs with
    | nil => cases h
    | cons b bs =>
      simp only [List.map_cons, List.cons.injEq] at h
      cases cs with
      | nil => rfl
      | cons c cs =>
        simp only [cmpChars, h.1]
        split_ifs <;> first | rfl | exact ih bs cs h.2

theorem cmpChars_congr_right : ∀ as bs cs : List Char,
    bs.map Char.toNat = cs.map Char.toNat → cmpChars as bs = cmpChars as cs := by
  intro as
  induction as with
  | nil =>
    intro bs cs h
    cases bs with
    | nil => cases cs with
      | nil => rfl
      | cons c cs => cases h
    | cons b bs => cases cs with
      | nil => cases h
      | cons c cs => rfl
  | cons a as ih =>
    intro bs cs h
    cases bs with
    | nil => cases cs with
      | nil => rfl
      | cons c cs => cases h
    | cons b bs => cases cs with
      | nil => cases h
      | cons c cs =>
        simp only [List.map_cons, List.cons.injEq] at h
        simp only [cmpChars, h.1]
        split_ifs <;> first | rfl | exact ih bs cs h.2

/-! ## Helper lemmas: the result comparator is a total preorder -/

theorem cmpTestResult_lt_iff {a b : TestResult} :
    cmpTestResult a b = .lt ↔
      a.priority.filename_match < b.priority.filename_match ∨
        (a.priority.filename_match = b.priority.filename_match ∧
          (a.priority.distance < b.priority.distance ∨
            (a.priority.distance = b.priority.distance ∧
              cmpChars a.path.data b.path.data = .lt))) := by
  simp only [cmpTestResult, cmpPriority, cmpStr, then_eq_lt, then_eq_eq,
    cmpNat_lt_iff, cmpNat_eq_iff]
  tauto

theorem cmpTestResult_gt_iff {a b : TestResult} :
    cmpTestResult a b = .gt ↔
      b.priority.filename_match < a.priority.filename_match ∨
        (a.priority.filename_match = b.priority.filename_match ∧
          (b.priority.distance < a.priority.distance ∨
            (a.priority.distance = b.priority.distance ∧
              cmpChars b.path.data a.path.data = .lt))) := by
  simp only [cmpTestResult, cmpPriority, cmpStr, then_eq_gt, then_eq_eq,
    cmpNat_gt_iff, cmpNat_eq_iff, cmpChars_gt_iff]
  tauto

theorem cmpTestResult_eq_iff {a b : TestResult} :
    cmpTestResult a b = .eq ↔
      a.priority.filename_match = b.priority.filename_match ∧
        a.priority.distance = b.priority.distance ∧
        a.path.data.map Char.toNat = b.path.data.map Char.toNat := by
  simp [cmpTestResult, cmpPriority, cmpStr, then_eq_eq, cmpNat_eq_iff,
    cmpChars_eq_iff, and_assoc]

theorem testLE_iff {a b : TestResult} :
    testLE a b = true ↔ cmpTestResult a b = .lt ∨ cmpTestResult a b = .eq := by
  simp only [testLE, decide_eq_true_eq]
  cases h : cmpTestResult a b <;> simp

theorem testLE_total (a b : TestResult) :
    testLE a b = true ∨ testLE b a = true := by
  rw [testLE_iff, testLE_iff]
  rcases h : cmpTestResult a b with _ | _ | _
  · exact Or.inl (Or.inl rfl)
  · exact Or.inl (Or.inr rfl)
  · refine Or.inr (Or.inl ?_)
    rw [cmpTestResult_gt_iff] at h
    rw [cmpTestResult_lt_iff]
    tauto

theorem testLE_trans (a b c : TestResult) :
    testLE a b = true → testLE b c = true → testLE a c = true := by
  rw [testLE_iff, testLE_iff, testLE_iff]
  intro hab hbc
  rcases hab with hab | hab
  · rcases hbc with hbc | hbc
    · left
      rw [cmpTestResult_lt_iff] at hab hbc ⊢
      rcases hab with h1 | ⟨e1, h1⟩ <;> rcases hbc with h2 | ⟨e2, h2⟩
      · exact Or.inl (by omega)
      · exact Or.inl (by omega)
      · exact Or.inl (by omega)
      · refine Or.inr ⟨by omega, ?_⟩
        rcases h1 with h1 | ⟨d1, h1⟩ <;> rcases h2 with h2 | ⟨d2, h2⟩
        · exact Or.inl (by omega)
        · exact Or.inl (by omega)
        · exact Or.inl (by omega)
        · exact Or.inr ⟨by omega, cmpChars_lt_trans _ _ _ h1 h2⟩
    · left
      rw [cmpTestResult_eq_iff] at hbc
      rw [cmpTestResult_lt_iff] at hab ⊢
      obtain ⟨e1, e2, e3⟩ := hbc
      rcases hab with h1 | ⟨f1, h1⟩
      · exact Or.inl (by omega)
      · refine Or.inr ⟨by omega, ?_⟩
        rcases h1 with h1 | ⟨d1, h1⟩
        · exact Or.inl (by omega)
        · exact Or.inr ⟨by omega, by rw [← cmpChars_congr_right _ _ _ e3]; exact h1⟩
  · rcases hbc with hbc | hbc
    · left
      rw [cmpTestResult_eq_iff] at hab
      rw [cmpTestResult_lt_iff] at hbc ⊢
      obtain ⟨e1, e2, e3⟩ := hab
      rcases hbc with h1 | ⟨f1, h1⟩
      · exact Or.inl (by omega)
      · refine Or.inr ⟨by omega, ?_⟩
        rcases h1 with h1 | ⟨d1, h1⟩
        · exact Or.inl (by omega)
        · exact Or.inr ⟨by omega, by rw [cmpChars_congr_left _ _ _ e3]; exact h1⟩
    · right
      rw [cmpTestResult_eq_iff] at hab hbc ⊢
      exact ⟨by omega, by omega, hab.2.2.trans hbc.2.2⟩

theorem sortTests_pairwise (l : List TestResult) :
    (sortTests l).Pairwise (fun a b => testLE a b = true) := by
  haveI : IsTotal TestResult (fun a b => testLE a b = true) := ⟨testLE_total⟩
  haveI : IsTrans TestResult (fun a b => testLE a b = true) := ⟨testLE_trans⟩
  exact List.sorted_insertionSort _ l

theorem sortTests_perm (l : List TestResult) : (sortTests l).Perm l :=
  List.perm_insertionSort _ l

/-! ## Helper lemmas: BFS state invariants -/

theorem strList_contains_iff {l : List String} {x : String} :
    l.contains x = true ↔ x ∈ l := by
  simp [List.contains_iff_exists_mem_beq]

theorem lookupDist_append {l : List (String × Nat)} {m k : String} {d : Nat} :
    lookupDist (l ++ [(m, d)]) k =
      match lookupDist l k with
      | some v => some v
      | none => if m == k then some d else none := by
  simp only [lookupDist, List.find?_append]
  cases h : l.find? (fun p => p.1 == k) with
  | none =>
    simp only [Option.map_none, Option.none_or]
    by_cases hm : m = k
    · subst hm; simp [List.find?]
    · have : (m == k) = false := by simp [hm]
      simp [List.find?, this]
  | some v => simp

/-- The visited set / distance-key-set invariant: `impacted_modules` and the
key set of `distances` stay equal throughout seeding and the BFS. -/
def KeysetInv (st : BfsState) : Prop :=
  ∀ m, m ∈ st.impacted ↔ (lookupDist st.distances m).isSome = true

/-- All recorded distances are bounded by `L`. -/
def DistBound (L : Nat) (st : BfsState) : Prop :=
  ∀ m d, lookupDist st.distances m = some d → d ≤ L


theorem stateInsert_of_mem {st : BfsState} {m : String} {d : Nat}
    (hm : m ∈ st.impacted) : stateInsert st m d = st := by
  simp [stateInsert, hm]

theorem stateInsert_of_not_mem {st : BfsState} {m : String} {d : Nat}
    (hm : m ∉ st.impacted) :
    stateInsert st m d =
      ⟨st.impacted ++ [m], st.distances ++ [(m, d)], st.queue ++ [m]⟩ := by
  simp [stateInsert, hm]

theorem mem_impacted_stateInsert {st : BfsState} {m : String} {d : Nat}
    {k : String} :
    k ∈ (stateInsert st m d).impacted ↔ k ∈ st.impacted ∨ k = m := by
  by_cases hm : m ∈ st.impacted
  · rw [stateInsert_of_mem hm]
    constructor
    · exact Or.inl
    · rintro (h | rfl)
      · exact h
      · exact hm
  · rw [stateInsert_of_not_mem hm]
    simp [List.mem_append]

theorem keysetInv_stateInsert {st : BfsState} {m : String} {d : Nat} :
    KeysetInv st → KeysetInv (stateInsert st m d) := by
  intro hinv k
  by_cases hm : m ∈ st.impacted
  · rw [stateInsert_of_mem hm]
    exact hinv k
  · rw [stateInsert_of_not_mem hm]
    show k ∈ st.impacted ++ [m] ↔ _
    cases hl : lookupDist st.distances k with
    | some v =>
      have hk : k ∈ st.impacted := (hinv k).mpr (by simp [hl])
      simp [List.mem_append, lookupDist_append, hl, hk]
    | none =>
      have hk : k ∉ st.impacted := fun h => by simpa [hl] using (hinv k).mp h
      by_cases he : m = k
      · subst he
        simp [List.mem_append, lookupDist_append, hl, hk]
      · have hbe : (m == k) = false := by simp [he]
        simp [List.mem_append, lookupDist_append, hl, hk, hbe, Ne.symm he]

theorem distBound_stateInsert {L : Nat} {st : BfsState} {m : String} {d : Nat} :
    DistBound L st → d ≤ L → DistBound L (stateInsert st m d) := by
  intro hb hd k v
  by_cases hm : m ∈ st.impacted
  · rw [stateInsert_of_mem hm]
    exact hb k v
  · rw [stateInsert_of_not_mem hm]
    show lookupDist (st.distances ++ [(m, d)]) k = some v → v ≤ L
    rw [lookupDist_append]
    cases hl : lookupDist st.distances k with
    | some v' =>
      intro hv
      simp only at hv
      cases hv
      exact hb k v hl
    | none =>
      cases he : (m == k) with
      | false => simp
      | true =>
        simp only [if_pos rfl]
        intro hv
        cases hv
        exact hd

theorem stateInsert_impacted_sub {st : BfsState} {m : String} {d : Nat}
    {k : String} :
    k ∈ st.impacted → k ∈ (stateInsert st m d).impacted :=
  fun h => mem_impacted_stateInsert.mpr (Or.inl h)

theorem mem_stateInsert_self {st : BfsState} {m : String} {d : Nat} :
    m ∈ (stateInsert st m d).impacted :=
  mem_impacted_stateInsert.mpr (Or.inr rfl)

theorem keysetInv_foldl_insert {d : Nat} :
    ∀ (children : List String) (st : BfsState), KeysetInv st →
      KeysetInv (children.foldl (fun s dep => stateInsert s dep d) st) := by
  intro children
  induction children with
  | nil => exact fun st h => h
  | cons c cs ih => exact fun st h => ih _ (keysetInv_stateInsert h)

theorem distBound_foldl_insert {L d : Nat} (hd : d ≤ L) :
    ∀ (children : List String) (st : BfsState), DistBound L st →
      DistBound L (children.foldl (fun s dep => stateInsert s dep d) st) := by
  intro children
  induction children with
  | nil => exact fun st h => h
  | cons c cs ih => exact fun st h => ih _ (distBound_stateInsert h hd)

theorem mem_foldl_insert {d : Nat} {k : String} :
    ∀ (children : List String) (st : BfsState), k ∈ st.impacted →
      k ∈ (children.foldl (fun s dep => stateInsert s dep d) st).impacted := by
  intro children
  induction children with
  | nil => exact fun st h => h
  | cons c cs ih => exact fun st h => ih _ (stateInsert_impacted_sub h)

theorem keysetInv_bfsLoop {reverse : List (String × List String)}
    {dl : Option Nat} :
    ∀ (fuel : Nat) (st : BfsState), KeysetInv st →
      KeysetInv (bfsLoop reverse dl fuel st) := by
  intro fuel
  induction fuel with
  | zero => exact fun st h => h
  | succ n ih =>
    intro st h
    rw [bfsLoop]
    cases hq : st.queue with
    | nil => exact h
    | cons m rest =>
      dsimp only
      split
      · exact ih _ h
      · exact ih _ (keysetInv_foldl_insert _ _ h)

theorem mem_impacted_bfsLoop {reverse : List (String × List String)}
    {dl : Option Nat} {k : String} :
    ∀ (fuel : Nat) (st : BfsState), k ∈ st.impacted →
      k ∈ (bfsLoop reverse dl fuel st).impacted := by
  intro fuel
  induction fuel with
  | zero => exact fun st h => h
  | succ n ih =>
    intro st h
    rw [bfsLoop]
    cases hq : st.queue with
    | nil => exact h
    | cons m rest =>
      dsimp only
      split
      · exact ih _ h
      · exact ih _ (mem_foldl_insert _ _ h)

theorem distBound_bfsLoop {reverse : List (String × List String)} {L : Nat} :
    ∀ (fuel : Nat) (st : BfsState), DistBound L st →
      DistBound L (bfsLoop reverse (some L) fuel st) := by
  intro fuel
  induction fuel with
  | zero => exact fun st h => h
  | succ n ih =>
    intro st h
    rw [bfsLoop]
    cases hq : st.queue with
    | nil => exact h
    | cons m rest =>
      dsimp only
      split
      · exact ih _ h
      · rename_i hguard
        simp only [decide_eq_true_eq] at hguard
        exact ih _ (distBound_foldl_insert (by omega) _ _ h)

theorem keysetInv_seedOne {fs : Fs} {idx : ProjectIndex} {st : BfsState}
    {p : FsPath} : KeysetInv st → KeysetInv (seedOne fs idx st p) := by
  intro h
  unfold seedOne
  cases lookupPath idx p with
  | some module => exact keysetInv_stateInsert h
  | none =>
    dsimp only
    split
    · exact keysetInv_stateInsert h
    · exact h

theorem distBound_seedOne {L : Nat} {fs : Fs} {idx : ProjectIndex}
    {st : BfsState} {p : FsPath} :
    DistBound L st → DistBound L (seedOne fs idx st p) := by
  intro h
  unfold seedOne
  cases lookupPath idx p with
  | some module => exact distBound_stateInsert h (Nat.zero_le L)
  | none =>
    dsimp only
    split
    · exact distBound_stateInsert h (Nat.zero_le L)
    · exact h

theorem keysetInv_empty : KeysetInv ⟨[], [], []⟩ := by
  intro m
  simp [lookupDist, List.find?]

theorem keysetInv_seedChanged {fs : Fs} {idx : ProjectIndex}
    {changed : List FsPath} : KeysetInv (seedChanged fs idx changed) := by
  unfold seedChanged
  have h : ∀ (l : List FsPath) (st : BfsState), KeysetInv st →
      KeysetInv (l.foldl (seedOne fs idx) st) := by
    intro l
    induction l with
    | nil => exact fun st h => h
    | cons p ps ih => exact fun st h => ih _ (keysetInv_seedOne h)
  exact h changed _ keysetInv_empty

theorem distBound_seedChanged {L : Nat} {fs : Fs} {idx : ProjectIndex}
    {changed : List FsPath} : DistBound L (seedChanged fs idx changed) := by
  unfold seedChanged
  have h : ∀ (l : List FsPath) (st : BfsState), DistBound L st →
      DistBound L (l.foldl (seedOne fs idx) st) := by
    intro l
    induction l with
    | nil => exact fun st h => h
    | cons p ps ih => exact fun st h => ih _ (distBound_seedOne h)
  refine h changed _ ?_
  intro m d hm
  simp [lookupDist, List.find?] at hm

theorem keysetInv_finalState {fs : Fs} {idx : ProjectIndex}
    {changed : List FsPath} {dl : Option Nat} :
    KeysetInv (finalState fs idx changed dl) :=
  keysetInv_bfsLoop _ _ keysetInv_seedChanged

theorem distBound_finalState {fs : Fs} {idx : ProjectIndex}
    {changed : List FsPath} {L : Nat} :
    DistBound L (finalState fs idx changed (some L)) :=
  distBound_bfsLoop _ _ distBound_seedChanged

/-! ## Helper lemmas: membership in the result list -/

theorem mkTestResult_distance {idx : ProjectIndex}
    {distances : List (String × Nat)} {leaves : List String} {m : String}
    {info : ModuleInfo} :
    (mkTestResult idx distances leaves m info).distance =
      (lookupDist distances m).getD usizeMax := by
  unfold mkTestResult
  dsimp only
  split <;> rfl

theorem mem_collectTests {idx : ProjectIndex} {st : BfsState}
    {leaves : List String} {r : TestResult} :
    r ∈ collectTests idx st leaves →
      ∃ m info, m ∈ st.impacted ∧ lookupModule idx m = some info ∧
        is_test_file info.path = true ∧
        r = mkTestResult idx st.distances leaves m info := by
  intro hr
  unfold collectTests at hr
  rw [List.mem_flatMap] at hr
  obtain ⟨m, hm, hr⟩ := hr
  refine ⟨m, ?_⟩
  unfold collectOne at hr
  cases hinfo : lookupModule idx m with
  | none => rw [hinfo] at hr; cases hr
  | some info =>
    rw [hinfo] at hr
    dsimp only at hr
    by_cases ht : is_test_file info.path
    · rw [if_pos ht] at hr
      rw [List.mem_singleton] at hr
      exact ⟨info, hm, rfl, ht, hr⟩
    · rw [if_neg ht] at hr
      cases hr

theorem mem_computeTests {fs : Fs} {idx : ProjectIndex} {changed : List FsPath}
    {max dl : Option Nat} {r : TestResult} :
    r ∈ computeTests fs idx changed max dl →
      r ∈ collectTests idx (finalState fs idx changed dl)
            (changedLeaves (finalState fs idx changed dl)) := by
  intro hr
  unfold computeTests at hr
  have hsorted : r ∈ sortTests (collectTests idx (finalState fs idx changed dl)
      (changedLeaves (finalState fs idx changed dl))) := by
    cases max with
    | none => exact hr
    | some limit => exact List.mem_of_mem_take hr
  exact (sortTests_perm _).mem_iff.mp hsorted

/-! ## Helper lemmas: the priority scorer -/

theorem priorityLoop_one (f : String) :
    ∀ l : List String, priorityLoop f l 1 =
      if l.any (strongMatch f) then 0 else 1 := by
  intro l
  induction l with
  | nil => simp [priorityLoop]
  | cons leaf rest ih =>
    by_cases hs : strongMatch f leaf = true
    · simp [priorityLoop, hs]
    · by_cases hw : weakMatch f leaf = true
      · simp [priorityLoop, hs, hw, ih]
      · simp [priorityLoop, hs, hw, ih]

theorem priorityLoop_two (f : String) :
    ∀ l : List String, priorityLoop f l 2 =
      if l.any (strongMatch f) then 0
      else if l.any (weakMatch f) then 1 else 2 := by
  intro l
  induction l with
  | nil => simp [priorityLoop]
  | cons leaf rest ih =>
    by_cases hs : strongMatch f leaf = true
    · simp [priorityLoop, hs]
    · by_cases hw : weakMatch f leaf = true
      · have hmin : min 2 1 = 1 := by omega
        simp [priorityLoop, hs, hw, hmin, priorityLoop_one, ih]
      · simp [priorityLoop, hs, hw, ih]

/-! ## Helper lemmas: relative-import base -/

theorem popLastN_eq_take :
    ∀ (n : Nat) (l : List String), popLastN n l = l.take (l.length - n) := by
  intro n
  induction n with
  | zero => intro l; simp [popLastN]
  | succ k ih =>
    intro l
    rw [popLastN, ih, List.dropLast_eq_take, List.take_take,
      List.length_take]
    congr 1
    omega

/-! ## Helper lemma: a dequeued module at the distance limit is not
expanded -/

theorem bfsStep_no_expand {reverse : List (String × List String)}
    {L fuel : Nat} {st : BfsState} {m : String} {rest : List String} {d : Nat}
    (hq : st.queue = m :: rest) (hd : lookupDist st.distances m = some d)
    (hL : L ≤ d) :
    bfsLoop reverse (some L) (fuel + 1) st =
      bfsLoop reverse (some L) fuel ⟨st.impacted, st.distances, rest⟩ := by
  rw [bfsLoop, hq]
  dsimp only
  rw [hd]
  simp [hL]

/-! ## Concrete scenario: the `core ← service ← test_service` chain -/

/-- Project root for the chain scenario. -/
def rootCh : FsPath := ["p"]

/-- Filesystem of the chain scenario. -/
def fsCh : Fs :=
  [["p", "pkg", "__init__.py"], ["p", "pkg", "core.py"],
   ["p", "pkg", "service.py"], ["p", "tests", "test_service.py"]]

/-- Module record of `pkg/__init__.py` in the chain scenario. -/
def pkgInitChInfo : ModuleInfo :=
  { module := module_name fsCh rootCh ["p", "pkg", "__init__.py"]
    path := ["p", "pkg", "__init__.py"]
    imports := [] }

/-- Module record of `pkg/core.py` in the chain scenario. -/
def coreInfo : ModuleInfo :=
  { module := module_name fsCh rootCh ["p", "pkg", "core.py"]
    path := ["p", "pkg", "core.py"]
    imports := [] }

/-- Module record of `pkg/service.py` (contains `from pkg import core`). -/
def serviceInfo : ModuleInfo :=
  { module := module_name fsCh rootCh ["p", "pkg", "service.py"]
    path := ["p", "pkg", "service.py"]
    imports :=
      [({ level := 0, module := some "pkg", name := some "core",
          kind := .ImportFrom } : ImportSpec)].filterMap
        (resolve_import (module_name fsCh rootCh ["p", "pkg", "service.py"]) false) }

/-- Module record of `tests/test_service.py` (contains
`from pkg import service`). -/
def testServiceInfo : ModuleInfo :=
  { module := module_name fsCh rootCh ["p", "tests", "test_service.py"]
    path := ["p", "tests", "test_service.py"]
    imports :=
      [({ level := 0, module := some "pkg", name := some "service",
          kind := .ImportFrom } : ImportSpec)].filterMap
        (resolve_import (module_name fsCh rootCh ["p", "tests", "test_service.py"]) false) }

/-- The project index built over the chain scenario. -/
def idxCh : ProjectIndex :=
  { root := rootCh
    modules :=
      [(pkgInitChInfo.module, pkgInitChInfo), (coreInfo.module, coreInfo),
       (serviceInfo.module, serviceInfo), (testServiceInfo.module, testServiceInfo)]
    path_to_module :=
      [(pkgInitChInfo.path, pkgInitChInfo.module), (coreInfo.path, coreInfo.module),
       (serviceInfo.path, serviceInfo.module), (testServiceInfo.path, testServiceInfo.module)]
    warnings := [] }

/-- `pkg/core.py` as the sole changed file of the chain scenario. -/
def changedCh : List FsPath := [["p", "pkg", "core.py"]]

/-! ## Scenario for warning escalation -/

/-- An index carrying one index-time warning and no imports. -/
def idxWarn : ProjectIndex :=
  { root := ["w"]
    modules := [("m", { module := "m", path := ["w", "m.py"], imports := [] })]
    path_to_module := [(["w", "m.py"], "m")]
    warnings := ["boom"] }

/-! ## Claims -/

/-- C1: the distance limit gates expansion, not inclusion. With limit `L`:
a dequeued module whose recorded distance has reached `L` is removed from
the queue without expanding its importers and without any other state
change; membership in the impacted set is never revoked by the traversal
(so a module first assigned distance exactly `L` stays impacted); every
distance recorded by the bounded run is at most `L`; and consequently no
test in the returned list has distance greater than `L`. -/
theorem spec2proof_C1 :
    (∀ (reverse : List (String × List String)) (L fuel : Nat) (st : BfsState)
        (m : String) (rest : List String) (d : Nat),
        st.queue = m :: rest → lookupDist st.distances m = some d → L ≤ d →
          bfsLoop reverse (some L) (fuel + 1) st =
            bfsLoop reverse (some L) fuel ⟨st.impacted, st.distances, rest⟩)
    ∧ (∀ (reverse : List (String × List String)) (dl : Option Nat) (fuel : Nat)
        (st : BfsState) (m : String),
        m ∈ st.impacted → m ∈ (bfsLoop reverse dl fuel st).impacted)
    ∧ (∀ (fs : Fs) (idx : ProjectIndex) (changed : List FsPath) (L : Nat)
        (m : String) (d : Nat),
        lookupDist (finalState fs idx changed (some L)).distances m = some d →
          d ≤ L)
    ∧ (∀ (fs : Fs) (idx : ProjectIndex) (changed : List FsPath)
        (max : Option Nat) (L : Nat) (r : TestResult),
        r ∈ computeTests fs idx changed max (some L) → r.distance ≤ L) := by
  refine ⟨?_, ?_, ?_, ?_⟩
  · intro reverse L fuel st m rest d hq hd hL
    exact bfsStep_no_expand hq hd hL
  · intro reverse dl fuel st m hm
    exact mem_impacted_bfsLoop fuel st hm
  · intro fs idx changed L m d hd
    exact distBound_finalState m d hd
  · intro fs idx changed max L r hr
    obtain ⟨m, info, hm, hinfo, ht, hrq⟩ := mem_collectTests (mem_computeTests hr)
    obtain ⟨d, hd⟩ := Option.isSome_iff_exists.mp ((keysetInv_finalState m).mp hm)
    have hle : d ≤ L := distBound_finalState m d hd
    rw [hrq, mkTestResult_distance, hd]
    simpa using hle

/-- Witness for C1 on the `core ← service ← test_service` chain: a module
recorded at the limit distance is dequeued without expansion, a seeded
module stays impacted, the recorded distance of `pkg.service` under limit 1
is bounded, and the concrete returned test under limit 2 respects the
bound. -/
theorem spec2proof_C1_witness :
    (bfsLoop (buildReverse fsCh idxCh).1 (some 1) 1
        ⟨["pkg.service"], [("pkg.service", 1)], ["pkg.service"]⟩ =
      bfsLoop (buildReverse fsCh idxCh).1 (some 1) 0
        ⟨["pkg.service"], [("pkg.service", 1)], []⟩)
    ∧ "pkg.core" ∈
        (bfsLoop (buildReverse fsCh idxCh).1 (some 1) 3
          (seedChanged fsCh idxCh changedCh)).impacted
    ∧ (1 : Nat) ≤ 1
    ∧ ({ path := "tests/test_service.py",
         priority := { filename_match := 0, distance := 2 },
         distance := 2 } : TestResult).distance ≤ 2 :=
  ⟨spec2proof_C1.1 (buildReverse fsCh idxCh).1 1 0 _ "pkg.service" [] 1 rfl
      (by decide) (by decide),
   spec2proof_C1.2.1 (buildReverse fsCh idxCh).1 (some 1) 3 _ "pkg.core"
      (by decide),
   spec2proof_C1.2.2.1 fsCh idxCh changedCh 1 "pkg.service" 1 (by decide),
   spec2proof_C1.2.2.2 fsCh idxCh changedCh none 2 _ (by decide)⟩

/-- C2: in the concrete project `pkg/__init__.py`, `pkg/foo.py`,
`tests/test_foo.py` (containing `from pkg import foo`), deleting
`pkg/foo.py` and running the analysis over the re-built index with the
deleted path as the sole changed file returns a list that includes
`tests/test_foo.py`: the guessed module `pkg.foo` is trimmed to the known
module `pkg`, whose reverse edge reaches the test. -/
theorem spec2proof_C2 :
    ∃ l, impacted_tests fsDel idxDel changedDel none none false =
        Except.ok l ∧ "tests/test_foo.py" ∈ l.map TestResult.path := by
  refine ⟨[{ path := "tests/test_foo.py",
             priority := { filename_match := 1, distance := 1 },
             distance := 1 }], ?_, ?_⟩
  · rfl
  · decide

/-- C3: for a relative import (`level > 0`), `resolve_import` removes
`min(level, component_count)` trailing components of the originating
module, except that a package marker with `level = 1` keeps all of them;
in particular `pkg.sub.mod` (not a package) with `level=1, name=x` gives
`pkg.sub.x`, with `level=2` gives `pkg.x`, and package `pkg.sub` with
`level=1, name=x` gives `pkg.sub.x`. -/
theorem spec2proof_C3 :
    (∀ (cur : String) (is_pkg : Bool) (spec : ImportSpec), 0 < spec.level →
        resolve_import cur is_pkg spec =
          (let parts := splitDots cur
           let base :=
             if is_pkg = true ∧ spec.level = 1 then parts
             else parts.take (parts.length - min spec.level parts.length)
           let tp :=
             base ++
               (match spec.module with
                 | some m => if m ≠ "" then splitDots m else []
                 | none => [])
           let tp :=
             match spec.kind, spec.name with
             | ImportKind.ImportFrom, some n =>
               if n ≠ "*" then tp ++ [n] else tp
             | _, _ => tp
           if tp = [] then none else some (joinDots tp)))
    ∧ resolve_import "pkg.sub.mod" false
        { level := 1, module := none, name := some "x", kind := .ImportFrom } =
          some "pkg.sub.x"
    ∧ resolve_import "pkg.sub.mod" false
        { level := 2, module := none, name := some "x", kind := .ImportFrom } =
          some "pkg.x"
    ∧ resolve_import "pkg.sub" true
        { level := 1, module := none, name := some "x", kind := .ImportFrom } =
          some "pkg.sub.x" := by
  refine ⟨?_, by decide, by decide, by decide⟩
  intro cur is_pkg spec hlvl
  simp only [resolve_import, if_pos hlvl, popLastN_eq_take]
  by_cases hc : is_pkg = true ∧ spec.level = 1
  · simp [hc]
  · simp [hc]

/-- Witness for C3: the general relative-resolution shape applied at a
concrete originating module and import specification. -/
theorem spec2proof_C3_witness :
    resolve_import "a.b" false
        { level := 1, module := none, name := some "x", kind := .ImportFrom } =
      (let parts := splitDots "a.b"
       let base :=
         if false = true ∧
             ({ level := 1, module := none, name := some "x",
                kind := .ImportFrom } : ImportSpec).level = 1 then parts
         else parts.take (parts.length - min 1 parts.length)
       let tp := base ++ []
       let tp := tp ++ ["x"]
       if tp = [] then none else some (joinDots tp)) := by
  have h := spec2proof_C3.1 "a.b" false
    { level := 1, module := none, name := some "x", kind := .ImportFrom }
    (by decide)
  simpa using h

/-- C4: the priority scorer yields `filename_match = 0` when some leaf
matches strongly (filename begins with `test_<leaf>` or contains
`_<leaf>`), otherwise 1 when some leaf occurs as a substring, otherwise 2;
consequently, at equal distance, `test_foo_extra.py` compares strictly
before `test_bar.py` under the result comparator when the changed leaf is
`foo`. -/
theorem spec2proof_C4 :
    (∀ (path : String) (distance : Nat) (changed_leaves : List String),
        priority path distance changed_leaves =
          { filename_match :=
              if changed_leaves.any
                  (strongMatch ((splitSlash path).getLast?.getD "")) then 0
              else if changed_leaves.any
                  (weakMatch ((splitSlash path).getLast?.getD "")) then 1
              else 2
            distance := distance })
    ∧ (∀ d : Nat,
        cmpTestResult
          { path := "tests/test_foo_extra.py",
            priority := priority "tests/test_foo_extra.py" d ["foo"],
            distance := d }
          { path := "tests/test_bar.py",
            priority := priority "tests/test_bar.py" d ["foo"],
            distance := d } = .lt) := by
  constructor
  · intro path distance changed_leaves
    unfold priority
    dsimp only
    rw [priorityLoop_two]
  · intro d
    rfl

/-- C5: the returned list contains only indexed modules whose file name
matches the test naming convention (each result is built from a module
whose `is_test_file` holds); `tests/conftest.py` is not a test file while
`tests/test_real.py` is. -/
theorem spec2proof_C5 :
    (∀ (fs : Fs) (idx : ProjectIndex) (changed : List FsPath)
        (max dl : Option Nat) (r : TestResult),
        r ∈ computeTests fs idx changed max dl →
          ∃ m info, lookupModule idx m = some info ∧
            is_test_file info.path = true ∧
            r = mkTestResult idx (finalState fs idx changed dl).distances
                  (changedLeaves (finalState fs idx changed dl)) m info)
    ∧ is_test_file ["tests", "conftest.py"] = false
    ∧ is_test_file ["tests", "test_real.py"] = true := by
  refine ⟨?_, by decide, by decide⟩
  intro fs idx changed max dl r hr
  obtain ⟨m, info, hm, hinfo, ht, hrq⟩ := mem_collectTests (mem_computeTests hr)
  exact ⟨m, info, hinfo, ht, hrq⟩

/-- Witness for C5: the concrete result of the chain scenario is built
from an indexed test-file module. -/
theorem spec2proof_C5_witness :
    ∃ m info, lookupModule idxCh m = some info ∧
      is_test_file info.path = true ∧
      ({ path := "tests/test_service.py",
         priority := { filename_match := 0, distance := 2 },
         distance := 2 } : TestResult) =
        mkTestResult idxCh (finalState fsCh idxCh changedCh (some 2)).distances
          (changedLeaves (finalState fsCh idxCh changedCh (some 2))) m info :=
  spec2proof_C5.1 fsCh idxCh changedCh none (some 2) _ (by decide)

/-- C6: `impacted_tests` fails exactly when warnings-as-errors is set and
the accumulated warning list (index-time plus resolution-time) is
non-empty; the error message reports the total count and the first
warning; and the check never short-circuits the computation: whenever it
does not fire, the full sorted and truncated result list is returned. -/
theorem spec2proof_C6 :
    ∀ (fs : Fs) (idx : ProjectIndex) (changed : List FsPath)
      (max dl : Option Nat) (w : Bool),
      (exceptIsError (impacted_tests fs idx changed max dl w) = true ↔
        w = true ∧ allWarnings fs idx ≠ [])
      ∧ (∀ msg, impacted_tests fs idx changed max dl w = .error msg →
          msg = errMsg (allWarnings fs idx))
      ∧ (w = false ∨ allWarnings fs idx = [] →
          impacted_tests fs idx changed max dl w =
            .ok (computeTests fs idx changed max dl)) := by
  intro fs idx changed max dl w
  refine ⟨?_, ?_, ?_⟩
  · cases w with
    | false =>
      cases hW : allWarnings fs idx <;>
        simp [impacted_tests, exceptIsError, hW]
    | true =>
      cases hW : allWarnings fs idx <;>
        simp [impacted_tests, exceptIsError, hW]
  · intro msg hmsg
    unfold impacted_tests at hmsg
    dsimp only at hmsg
    split at hmsg
    · injection hmsg with h
      exact h.symm
    · cases hmsg
  · intro h
    rcases h with h | h
    · subst h
      simp [impacted_tests]
    · simp [impacted_tests, h]

/-- Witness for C6 on a concrete index carrying one warning: with the flag
set the run fails, with the flag unset it returns the full computed list. -/
theorem spec2proof_C6_witness :
    exceptIsError (impacted_tests [] idxWarn [] none none true) = true
    ∧ impacted_tests [] idxWarn [] none none false =
        .ok (computeTests [] idxWarn [] none none) :=
  ⟨(spec2proof_C6 [] idxWarn [] none none true).1.mpr ⟨rfl, by decide⟩,
   (spec2proof_C6 [] idxWarn [] none none false).2.2 (Or.inl rfl)⟩

/-- C7 counterexample: a run that handles a changed file via the guess
path (the diagnostic appears in the emitted stream with `quiet` unset)
while the accumulated warning list stays empty — so the guess-path
diagnostic is not recorded in the accumulated warning list, refuting the
claim as stated. -/
theorem spec2proof_C7_counterexample :
    (impactedTestsRun fsDel idxDel changedDel none none false false).2.1 = []
    ∧ "Warning: changed file not indexed (using module `pkg.foo`): proj/pkg/foo.py" ∈
        (impactedTestsRun fsDel idxDel changedDel none none false false).2.2 := by
  exact ⟨rfl, by decide⟩

/-- C7 (amended): the quiet flag suppresses only emission, never
collection — the accumulated warning list is the index-time plus
resolution-time warnings, identical whatever the quiet flag; with quiet
set nothing is emitted; with quiet unset the emitted stream is every
accumulated warning (prefixed `Warning: `) followed by the guess-path
diagnostics, which are emitted only and never recorded in the accumulated
list. -/
theorem spec2proof_C7 :
    ∀ (fs : Fs) (idx : ProjectIndex) (changed : List FsPath)
      (max dl : Option Nat) (q w : Bool),
      (impactedTestsRun fs idx changed max dl q w).2.1 = allWarnings fs idx
      ∧ (impactedTestsRun fs idx changed max dl true w).2.1 =
          (impactedTestsRun fs idx changed max dl false w).2.1
      ∧ (impactedTestsRun fs idx changed max dl true w).2.2 = []
      ∧ (q = false →
          (impactedTestsRun fs idx changed max dl q w).2.2 =
            (allWarnings fs idx).map (fun s => "Warning: " ++ s) ++
              guessWarnings fs idx changed) := by
  intro fs idx changed max dl q w
  refine ⟨rfl, rfl, by simp [impactedTestsRun, emittedDiagnostics], ?_⟩
  intro hq
  subst hq
  simp [impactedTestsRun, emittedDiagnostics]

/-- Witness for C7 (amended) at the deleted-file scenario with quiet
unset. -/
theorem spec2proof_C7_witness :
    (impactedTestsRun fsDel idxDel changedDel none none false false).2.2 =
      (allWarnings fsDel idxDel).map (fun s => "Warning: " ++ s) ++
        guessWarnings fsDel idxDel changedDel :=
  (spec2proof_C7 fsDel idxDel changedDel none none false false).2.2.2 rfl

/-- C8 counterexample: a non-representable path met while indexing is not
fatal — `parse_file` silently skips it, returning no module and recording
no warning, refuting the claim's "including when such a path is met while
indexing the source tree". -/
theorem spec2proof_C8_counterexample :
    parse_file [] (fun _ => ReadResult.parsed []) [] (RawPath.nonUtf8 0) [] =
      Except.ok (none, []) := rfl

/-- C8 (amended): a non-representable changed path is fatal for the
invocation — `normalize_changed` surfaces an error as soon as the changed
set contains one — but a non-representable path met while indexing is
silently skipped by `parse_file` with no module produced and no warning
recorded. -/
theorem spec2proof_C8 :
    (∀ ps : List RawPath, (∃ t, RawPath.nonUtf8 t ∈ ps) →
        ∃ e, normalize_changed ps = .error e)
    ∧ (∀ (fs : Fs) (read : FsPath → ReadResult) (root : FsPath) (t : Nat)
        (warnings : List String),
        parse_file fs read root (RawPath.nonUtf8 t) warnings =
          .ok (none, warnings)) := by
  constructor
  · intro ps hps
    obtain ⟨t, ht⟩ := hps
    induction ps with
    | nil => cases ht
    | cons p rest ih =>
      cases p with
      | nonUtf8 u => exact ⟨"Changed path must be valid UTF-8", rfl⟩
      | utf8 q =>
        rcases List.mem_cons.mp ht with h | h
        · cases h
        · obtain ⟨e, he⟩ := ih h
          refine ⟨e, ?_⟩
          simp [normalize_changed, he]
  · intro _ _ _ _ _
    rfl

/-- Witness for C8 (amended): a changed set containing a non-representable
path makes `normalize_changed` fail. -/
theorem spec2proof_C8_witness :
    ∃ e, normalize_changed [RawPath.utf8 ["a.py"], RawPath.nonUtf8 7] =
      Except.error e :=
  spec2proof_C8.1 _ ⟨7, by simp⟩

/-- C9: determinism of the output order — the priority value depends only
on the membership of the leaf set, not its iteration order, and the
returned list is sorted under the comparator (filename match, then
distance, then lexicographic output path). -/
theorem spec2proof_C9 :
    (∀ (path : String) (d : Nat) (l₁ l₂ : List String),
        (∀ s, s ∈ l₁ ↔ s ∈ l₂) → priority path d l₁ = priority path d l₂)
    ∧ (∀ (fs : Fs) (idx : ProjectIndex) (changed : List FsPath)
        (max dl : Option Nat),
        (computeTests fs idx changed max dl).Pairwise
          (fun a b => testLE a b = true)) := by
  constructor
  · intro path d l₁ l₂ hmem
    have hany : ∀ p : String → Bool, l₁.any p = l₂.any p := by
      intro p
      by_cases h : l₁.any p = true
      · rw [h]
        symm
        rw [List.any_eq_true] at h ⊢
        obtain ⟨x, hx, hpx⟩ := h
        exact ⟨x, (hmem x).mp hx, hpx⟩
      · have h₂ : ¬l₂.any p = true := by
          intro hh
          rw [List.any_eq_true] at hh
          obtain ⟨x, hx, hpx⟩ := hh
          exact h (List.any_eq_true.mpr ⟨x, (hmem x).mpr hx, hpx⟩)
        rw [Bool.not_eq_true] at h h₂
        rw [h, h₂]
    unfold priority
    dsimp only
    rw [priorityLoop_two, priorityLoop_two, hany, hany]
  · intro fs idx changed max dl
    unfold computeTests
    dsimp only
    cases max with
    | none => exact sortTests_pairwise _
    | some limit =>
      exact (sortTests_pairwise _).sublist (List.take_sublist _ _)

/-- Witness for C9: two enumerations of the same leaf set give the same
priority. -/
theorem spec2proof_C9_witness :
    priority "tests/x_a.py" 0 ["a", "b"] = priority "tests/x_a.py" 0 ["b", "a"] :=
  spec2proof_C9.1 "tests/x_a.py" 0 ["a", "b"] ["b", "a"]
    (fun s => by constructor <;> (intro h; simp only [List.mem_cons] at h ⊢; tauto))

/-- C10: throughout seeding and BFS the impacted set equals the key set of
the distances map, so every reported result carries a genuine recorded BFS
distance (the `usize::MAX` fallback is never the value used). -/
theorem spec2proof_C10 :
    (∀ (fs : Fs) (idx : ProjectIndex) (changed : List FsPath)
        (dl : Option Nat) (m : String),
        m ∈ (finalState fs idx changed dl).impacted ↔
          ∃ d, lookupDist (finalState fs idx changed dl).distances m = some d)
    ∧ (∀ (fs : Fs) (idx : ProjectIndex) (changed : List FsPath)
        (max dl : Option Nat) (r : TestResult),
        r ∈ computeTests fs idx changed max dl →
          ∃ m, m ∈ (finalState fs idx changed dl).impacted ∧
            lookupDist (finalState fs idx changed dl).distances m =
              some r.distance) := by
  constructor
  · intro fs idx changed dl m
    constructor
    · intro h
      exact Option.isSome_iff_exists.mp ((keysetInv_finalState m).mp h)
    · rintro ⟨d, hd⟩
      exact (keysetInv_finalState m).mpr (by simp [hd])
  · intro fs idx changed max dl r hr
    obtain ⟨m, info, hm, hinfo, ht, hrq⟩ := mem_collectTests (mem_computeTests hr)
    obtain ⟨d, hd⟩ := Option.isSome_iff_exists.mp ((keysetInv_finalState m).mp hm)
    refine ⟨m, hm, ?_⟩
    rw [hrq, mkTestResult_distance, hd]
    simp

/-- Witness for C10 at the chain scenario: the key-set equivalence applied
at `tests.test_service`, and the concrete result's recorded distance. -/
theorem spec2proof_C10_witness :
    "tests.test_service" ∈ (finalState fsCh idxCh changedCh none).impacted
    ∧ ∃ m, m ∈ (finalState fsCh idxCh changedCh (some 2)).impacted ∧
        lookupDist (finalState fsCh idxCh changedCh (some 2)).distances m =
          some ({ path := "tests/test_service.py",
                  priority := { filename_match := 0, distance := 2 },
                  distance := 2 } : TestResult).distance :=
  ⟨(spec2proof_C10.1 fsCh idxCh changedCh none "tests.test_service").mpr
      ⟨2, by decide⟩,
   spec2proof_C10.2 fsCh idxCh changedCh none (some 2) _ (by decide)⟩
